import Mathlib

/-!
Shallow embedding of the blog repository's two C++ code samples:
the `back_emplace_iterator` output-iterator adapter with its demonstration
drivers (emplace_back_iterator.cpp, inlined in the article), and the
`consteval` fold-expression helpers (template_metaprogramming_helpers.cpp).

Containers are modelled as Lean lists, the adapter's non-owning pointer to
its container as an address into an explicit heap of containers, and the
demonstration element type `ProgressBar` as a structure.  Exceptions from an
element constructor are modelled with `Except`.
-/

/-- Abstract model of `std::streambuf*`: an opaque handle. -/
structure StreamBuf where
  id : Nat
deriving DecidableEq

/-- The buffer returned by `std::cout.rdbuf()` (one fixed handle). -/
def coutBuf : StreamBuf := ⟨0⟩

/-- Model of the `ProgressBar` class: `m_out` is the wrapped stream buffer,
`m_prefixStr` models the `m_prefix` string member, `m_progress` the progress
counter (a `double` in the source, initialised to 0 and only ever incremented
by 10, so all reachable values are exactly representable and modelled by
`Nat`). -/
structure ProgressBar where
  m_out : StreamBuf
  m_prefixStr : String
  m_progress : Nat
deriving DecidableEq

/-- The `ProgressBar(std::streambuf* buffer, std::string prefix)` constructor:
stores the buffer, moves the string in, and starts `m_progress` at 0. -/
def ProgressBar.construct (buffer : StreamBuf) (p : String) : ProgressBar :=
  ⟨buffer, p, 0⟩

/-- `ProgressBar::tick`: `m_progress += 10`. -/
def ProgressBar.tick (b : ProgressBar) : ProgressBar :=
  { b with m_progress := b.m_progress + 10 }

/-- `log_progress`: `for_each` over the deque, ticking every bar
(`write_progress` only writes to the stream and does not change the bar). -/
def log_progress (bars : List ProgressBar) : List ProgressBar :=
  bars.map ProgressBar.tick

/-- `std::deque<α>::emplace_back`, for an element type whose constructor
`ctor` consumes one argument bundle of type `β`: the new element is
constructed in place from the bundle at the back of the deque. -/
def emplace_back {α β : Type} (ctor : β → α) (c : List α) (args : β) : List α :=
  c ++ [ctor args]

/-- `std::deque<α>::emplace_back` when the element constructor can throw.
`std::deque` gives the strong exception guarantee for `emplace_back`: on an
exception from the element constructor the deque is left unchanged, and the
exception propagates.  The result pairs the outcome (thrown error or unit)
with the deque after the call. -/
def emplace_back_throwing {α β ε : Type} (ctor : β → Except ε α) (c : List α)
    (args : β) : Except ε Unit × List α :=
  match ctor args with
  | .error e => (.error e, c)
  | .ok x => (.ok (), c ++ [x])

/-- The `back_emplace_iterator` adapter: its only data member is
`Container* m_container`, the address of the bound container
(`std::addressof(container)`).  Addresses are modelled as `Nat`. -/
structure back_emplace_iterator where
  m_container : Nat
deriving DecidableEq

/-- A heap of containers: what each address holds. -/
def Heap (α : Type) := Nat → List α

/-- The observable state an adapter operates on: the adapter object itself
together with the heap holding the containers. -/
structure AdapterState (α : Type) where
  it : back_emplace_iterator
  heap : Heap α

/-- The explicit constructor `back_emplace_iterator(Container& container)`:
stores `std::addressof(container)`. -/
def back_emplacer (addr : Nat) : back_emplace_iterator :=
  ⟨addr⟩

/-- `operator*`: `return *this;` — yields a reference to the adapter itself
and leaves all state alone. -/
def derefOp {α : Type} (s : AdapterState α) :
    back_emplace_iterator × AdapterState α :=
  (s.it, s)

/-- `operator++()` (pre-increment): `return *this;`. -/
def preIncOp {α : Type} (s : AdapterState α) :
    back_emplace_iterator × AdapterState α :=
  (s.it, s)

/-- `operator++(int)` (post-increment): `return *this;` by value — a copy of
the adapter. -/
def postIncOp {α : Type} (s : AdapterState α) :
    back_emplace_iterator × AdapterState α :=
  (s.it, s)

/-- `operator=(Tuple&& tuple_args)`: `std::apply` unpacks the bundle and the
lambda calls `m_container->emplace_back(std::forward<decltype(args)>(args)...)`;
the operator returns `*this`.  The bundle decomposition is folded into `ctor`,
the element construction from one bundle. -/
def assignOp {α β : Type} (ctor : β → α) (s : AdapterState α) (args : β) :
    back_emplace_iterator × AdapterState α :=
  (s.it,
    ⟨s.it, fun a =>
      if a = s.it.m_container then emplace_back ctor (s.heap a) args
      else s.heap a⟩)

/-- `operator=` when the element constructor can throw: the exception from
`emplace_back` propagates unchanged out of the assignment, and the heap is
what `std::deque::emplace_back`'s strong guarantee left behind. -/
def assignOpThrowing {α β ε : Type} (ctor : β → Except ε α)
    (s : AdapterState α) (args : β) :
    Except ε back_emplace_iterator × AdapterState α :=
  let r := emplace_back_throwing ctor (s.heap s.it.m_container) args
  (r.1.map (fun _ => s.it),
    ⟨s.it, fun a => if a = s.it.m_container then r.2 else s.heap a⟩)

/-- `std::apply` specialised to a two-element bundle: decomposes the pair in
declared order and passes the elements to `f`. -/
def apply2 {a b c : Type} (f : a → b → c) (t : a × b) : c :=
  f t.1 t.2

/-- `std::transform(first, last, d_first, unary_op)` with a
`back_emplace_iterator` destination: for each input element in order,
`*d_first = unary_op(*first)` then `++d_first`. -/
def transform {α β γ : Type} (ctor : β → α) (f : γ → β) :
    List γ → AdapterState α → AdapterState α
  | [], s => s
  | x :: xs, s =>
      let s1 := (derefOp s).2
      let s2 := (assignOp ctor s1 (f x)).2
      let s3 := (preIncOp s2).2
      transform ctor f xs s3

/-- One stateful step of the mutable generator lambda
`[i = 0]() mutable { return "task" + std::to_string(i++); }`. -/
def taskGen (i : Nat) : String × Nat :=
  ("task" ++ toString i, i + 1)

/-- `std::generate_n(std::back_inserter(tasks), n, gen)`: runs the stateful
generator `n` times, appending each produced value at the back. -/
def generate_n_into {σ a : Type} (gen : σ → a × σ) :
    Nat → σ → List a → List a × σ
  | 0, s, acc => (acc, s)
  | n + 1, s, acc =>
      let p := gen s
      generate_n_into gen n p.2 (acc ++ [p.1])

/-- `get_tasks(num_of_tasks)`: fills an initially empty vector with
`generate_n` and the counter lambda starting at 0. -/
def get_tasks (num_of_tasks : Nat) : List String :=
  (generate_n_into taskGen num_of_tasks 0 []).1

/-- The container `bars` as built by `do_tasks_for_loop` at the point
`log_progress(bars)` is called: an explicit loop
`for (const auto& task : tasks) bars.emplace_back(std::cout.rdbuf(), task);`
over an initially empty deque. -/
def do_tasks_for_loop_bars (num_of_tasks : Nat) : List ProgressBar :=
  (get_tasks num_of_tasks).foldl
    (fun bars task => emplace_back (apply2 ProgressBar.construct) bars (coutBuf, task)) []

/-- The container `bars` as built by `do_tasks_algorithm` at the point
`log_progress(bars)` is called: `std::transform` over the tasks into
`back_emplacer(bars)` with the unary op
`[](const auto& task) { return std::make_tuple(std::cout.rdbuf(), task); }`,
`bars` initially empty.  The deque lives at heap address 0. -/
def do_tasks_algorithm_bars (num_of_tasks : Nat) : List ProgressBar :=
  (transform (apply2 ProgressBar.construct) (fun task => (coutBuf, task))
      (get_tasks num_of_tasks) ⟨back_emplacer 0, fun _ => []⟩).heap 0

/-!
Value-category model for the forwarding chain of `operator=`.  C++ expression
categories are collapsed to lvalue vs rvalue (prvalues and xvalues both bind
to rvalue references and are movable-from).
-/

/-- A C++ value category, collapsed to the move-relevant distinction. -/
inductive ValueCat where
  | lvalue
  | rvalue
deriving DecidableEq

/-- How an element is stored inside the `std::tuple` bundle: as a value
member (what `std::make_tuple` produces) or as an lvalue reference member
(`std::tuple<T&>`, e.g. from `std::tie`). -/
inductive TupleStorage where
  | byValue
  | byLRef
deriving DecidableEq

/-- Value category of `std::get<I>(t)` when the tuple expression `t` has
category `tc`: a reference member yields an lvalue regardless of `tc`; a
value member yields a member access with the tuple's own category. -/
def getCat (tc : ValueCat) (st : TupleStorage) : ValueCat :=
  match st with
  | .byLRef => .lvalue
  | .byValue => tc

/-- `std::forward<decltype(args)>(args)` inside the generic lambda: the
forwarding reference `auto&&... args` deduces `decltype(args)` as `T&` for an
lvalue argument and `T&&` for an rvalue argument, so forwarding restores
exactly the category the argument arrived with. -/
def forwardCat (declCat : ValueCat) : ValueCat :=
  declCat

/-- End-to-end category with which one bundle element reaches the element
constructor through `operator=`: the operator takes `Tuple&& tuple_args` and
does `std::apply(lambda, std::forward<Tuple>(tuple_args))`, so the tuple
keeps the category `tupleCat` it was assigned with, `std::get` inside
`std::apply` gives each element `getCat tupleCat st`, and the lambda's
forward preserves that. -/
def forwardedCat (tupleCat : ValueCat) (st : TupleStorage) : ValueCat :=
  forwardCat (getCat tupleCat st)

/-- A move-observable source object: its payload plus whether a move has
already consumed it. -/
structure Source (α : Type) where
  value : α
  movedFrom : Bool
deriving DecidableEq

/-- What the constructed element's constructor observed for one argument:
move semantics or copy/reference semantics. -/
inductive CtorAccess where
  | movedAccess
  | copiedAccess
deriving DecidableEq

/-- A move-counting element constructor parameter: an argument arriving as an
rvalue is moved from (the source is marked moved-from), an argument arriving
as an lvalue is read by reference/copied (the source is untouched).  Returns
the value received, the source afterwards, and which semantics were
observed. -/
def constructObserve {α : Type} (cat : ValueCat) (s : Source α) :
    α × Source α × CtorAccess :=
  match cat with
  | .rvalue => (s.value, ⟨s.value, true⟩, .movedAccess)
  | .lvalue => (s.value, s, .copiedAccess)

/-- The full observable effect of one `operator=` call on a bundle whose
elements are categorised sources: each element is forwarded with
`forwardedCat tupleCat st` and then consumed by the move-counting
constructor parameter. -/
def assignObserve {α : Type} (tupleCat : ValueCat)
    (bundle : List (TupleStorage × Source α)) :
    List (α × Source α × CtorAccess) :=
  bundle.map (fun p => constructObserve (forwardedCat tupleCat p.1) p.2)

/-!
Compile-time instantiation model for C4.  A container type is abstracted to
the two compile-time facts the adapter's members could depend on: whether it
has an `emplace_back` member, and whether the bundle's argument types can
construct its element type.
-/

/-- Whether instantiating `back_emplace_iterator(Container&)` compiles for a
container with the given capabilities: the body only calls
`std::addressof(container)`, and no constraint is declared, so every
container type is accepted. -/
def ctor_instantiates (_hasEmplaceBack : Bool) : Bool :=
  true

/-- Whether instantiating `operator=(Tuple&&)` compiles: its body calls
`m_container->emplace_back(args...)`, which requires the member to exist and
the argument types to construct `Container::value_type`; there is no runtime
check. -/
def assign_instantiates (hasEmplaceBack argsConstructValue : Bool) : Bool :=
  hasEmplaceBack && argsConstructValue

/-!
The fold-expression helpers of template_metaprogramming_helpers.cpp.  A
template parameter pack is a list of types, modelled abstractly as a list
over an arbitrary type `T`; a unary predicate template is a Bool-valued
function on `T`.  The C++ fold expressions `(P<Args>() && ...)` and
`(P<Args>() || ...)` are right folds whose empty-pack values are `true` and
`false` respectively, as the standard specifies.
-/

/-- `all_of<Predicate, Args...>()`: the fold `(Predicate<Args>() && ...)`. -/
def all_of {T : Type} (P : T → Bool) (args : List T) : Bool :=
  args.foldr (fun a acc => P a && acc) true

/-- `any_of<Predicate, Args...>()`: the fold `(Predicate<Args>() || ...)`. -/
def any_of {T : Type} (P : T → Bool) (args : List T) : Bool :=
  args.foldr (fun a acc => P a || acc) false

/-- `none_of<Predicate, Args...>()`: `!any_of<Predicate, Args...>()`. -/
def none_of {T : Type} (P : T → Bool) (args : List T) : Bool :=
  !any_of P args

/-!
The no-op iterator-protocol calls of C6, as an arbitrary finite mix. -/

/-- One of the three stateless protocol calls on the adapter. -/
inductive NoOpCall where
  | derefCall
  | preIncCall
  | postIncCall
deriving DecidableEq

/-- Run one protocol call, keeping only the state it leaves behind. -/
def runNoOp {α : Type} : NoOpCall → AdapterState α → AdapterState α
  | .derefCall, s => (derefOp s).2
  | .preIncCall, s => (preIncOp s).2
  | .postIncCall, s => (postIncOp s).2

/-- Run any finite sequence of protocol calls. -/
def runNoOps {α : Type} (calls : List NoOpCall) (s : AdapterState α) :
    AdapterState α :=
  calls.foldl (fun s c => runNoOp c s) s

/-!  Helper lemmas shared by the claim theorems. -/

/-- Unfolding a full `std::transform` run into the adapter: the bound
container receives one constructed element per input, in input order, and
every other container is untouched. -/
theorem transform_state {α β γ : Type} (ctor : β → α) (f : γ → β) (input : List γ)
    (it : back_emplace_iterator) (h : Heap α) :
    transform ctor f input ⟨it, h⟩ =
      ⟨it, fun a => if a = it.m_container
        then h a ++ input.map (fun x => ctor (f x)) else h a⟩ := by
  induction input generalizing h with
  | nil =>
      simp only [transform, List.map_nil, List.append_nil]
      congr 1
      funext a
      by_cases ha : a = it.m_container <;> simp [ha]
  | cons x xs ih =>
      simp only [transform, derefOp, preIncOp, assignOp]
      rw [ih]
      congr 1
      funext a
      by_cases ha : a = it.m_container <;> simp [ha, emplace_back]

/-- The explicit `for` loop of repeated `emplace_back` calls is an append of
the mapped constructions. -/
theorem foldl_emplace_back {α β γ : Type} (ctor : β → α) (g : γ → β) (l : List γ) :
    ∀ init : List α,
      List.foldl (fun acc t => emplace_back ctor acc (g t)) init l
        = init ++ l.map (fun t => ctor (g t)) := by
  induction l with
  | nil => intro init; simp
  | cons x xs ih =>
      intro init
      rw [List.foldl_cons, ih]
      simp [emplace_back]

/-- Running the counter generator `n` times from counter `i` appends the
task strings for `i, i+1, ..., i+n-1`. -/
theorem generate_n_into_taskGen (n : Nat) : ∀ (i : Nat) (acc : List String),
    (generate_n_into taskGen n i acc).1
      = acc ++ (List.range' i n).map (fun j => "task" ++ toString j) := by
  induction n with
  | zero => intro i acc; simp [generate_n_into]
  | succ n ih =>
      intro i acc
      rw [List.range'_succ]
      simp only [generate_n_into, taskGen, List.map_cons]
      rw [ih]
      simp

/-- Closed form of `get_tasks`. -/
theorem get_tasks_eq (n : Nat) :
    get_tasks n = (List.range n).map (fun i => "task" ++ toString i) := by
  rw [get_tasks, generate_n_into_taskGen, List.range_eq_range']
  simp

/-- Each protocol call leaves the adapter state untouched. -/
theorem runNoOp_id {α : Type} (c : NoOpCall) (s : AdapterState α) :
    runNoOp c s = s := by
  cases c <;> rfl

/-- Any sequence of protocol calls leaves the adapter state untouched. -/
theorem runNoOps_id {α : Type} (calls : List NoOpCall) (s : AdapterState α) :
    runNoOps calls s = s := by
  induction calls with
  | nil => rfl
  | cons c cs ih =>
      rw [runNoOps, List.foldl_cons, runNoOp_id]
      exact ih

/-- C1: for every sequence of N argument bundles written through the
`back_emplace_iterator` by a transformation algorithm (one assignment per
bundle, as in `do_tasks_algorithm`), the bound Target Container ends with
exactly N elements, and its i-th element is constructed from the arguments
of the i-th bundle in input order; more generally the run appends the
constructed elements to whatever the container held before. -/
theorem C1_transform_builds_every_bundle {α β γ : Type} (ctor : β → α)
    (f : γ → β) (input : List γ) (it : back_emplace_iterator) (h : Heap α) :
    (transform ctor f input ⟨it, h⟩).heap it.m_container
        = h it.m_container ++ input.map (fun x => ctor (f x))
    ∧ ((transform ctor f input ⟨it, fun _ => []⟩).heap it.m_container).length
        = input.length
    ∧ ∀ i : Nat,
        ((transform ctor f input ⟨it, fun _ => []⟩).heap it.m_container)[i]?
          = (input[i]?).map (fun x => ctor (f x)) := by
  refine ⟨?_, ?_, fun i => ?_⟩ <;> simp [transform_state]

/-- C5: a single invocation of `operator=` decomposes the bundle in declared
order, hands exactly those elements to the container's `emplace_back`, grows
the bound container by exactly one element constructed directly from them,
and returns the adapter itself. -/
theorem C5_assign_single_emplace {α a b : Type} (elemCtor : a → b → α)
    (s : AdapterState α) (t : a × b) :
    (assignOp (apply2 elemCtor) s t).1 = s.it
    ∧ ((assignOp (apply2 elemCtor) s t).2).it = s.it
    ∧ ((assignOp (apply2 elemCtor) s t).2).heap s.it.m_container
        = s.heap s.it.m_container ++ [elemCtor t.1 t.2]
    ∧ (((assignOp (apply2 elemCtor) s t).2).heap s.it.m_container).length
        = (s.heap s.it.m_container).length + 1 := by
  refine ⟨rfl, rfl, ?_, ?_⟩ <;> simp [assignOp, emplace_back, apply2]

/-- C6: dereference, pre-increment and post-increment are idempotent no-ops:
any finite mix of such calls leaves the adapter state (its container
reference and the heap of containers) unchanged, dereference and
pre-increment return the adapter itself, and post-increment returns a copy
equal to it. -/
theorem C6_noop_protocol_calls {α : Type} (calls : List NoOpCall)
    (s : AdapterState α) :
    runNoOps calls s = s
    ∧ derefOp s = (s.it, s)
    ∧ preIncOp s = (s.it, s)
    ∧ postIncOp s = (s.it, s) := by
  exact ⟨runNoOps_id calls s, rfl, rfl, rfl⟩

/-- C7: every operation preserves the invariant that the adapter holds
exactly the one non-owning reference it was constructed with, and no
operation copies or moves the Target Container: construction stores the
container's address, the protocol calls change nothing, and assignment keeps
the same reference, extends the bound container in place, and leaves every
other heap location untouched. -/
theorem C7_container_reference_invariant {α β : Type} (ctor : β → α)
    (addr : Nat) (s : AdapterState α) (args : β) :
    (back_emplacer addr).m_container = addr
    ∧ (∀ c : NoOpCall, (runNoOp c s).it = s.it ∧ (runNoOp c s).heap = s.heap)
    ∧ ((assignOp ctor s args).2).it = s.it
    ∧ ((assignOp ctor s args).2).heap s.it.m_container
        = s.heap s.it.m_container ++ [ctor args]
    ∧ ∀ a : Nat, a ≠ s.it.m_container →
        ((assignOp ctor s args).2).heap a = s.heap a := by
  refine ⟨rfl, fun c => by cases c <;> exact ⟨rfl, rfl⟩, rfl, ?_, fun a ha => ?_⟩
  · simp [assignOp, emplace_back]
  · simp [assignOp, ha]

/-- Witness for C7 at a concrete instance: assigning through an adapter
bound to address 0 leaves the container at address 1 untouched. -/
theorem C7_witness :
    ((assignOp (fun n : Nat => n) ⟨⟨0⟩, fun _ => []⟩ 5).2).heap 1 = [] :=
  (C7_container_reference_invariant (fun n : Nat => n) 0
      ⟨⟨0⟩, fun _ => []⟩ 5).2.2.2.2 1 (by decide)

/-- C3: if the element constructor fails during an assignment, the error
propagates unchanged to the caller of the assignment, and every container in
the heap — in particular the bound one and its element count — is exactly as
before the attempt. -/
theorem C3_failed_assignment_leaves_container {α β ε : Type}
    (ctor : β → Except ε α) (s : AdapterState α) (args : β) (e : ε)
    (hfail : ctor args = .error e) :
    (assignOpThrowing ctor s args).1 = .error e
    ∧ (∀ a : Nat, ((assignOpThrowing ctor s args).2).heap a = s.heap a)
    ∧ (((assignOpThrowing ctor s args).2).heap s.it.m_container).length
        = (s.heap s.it.m_container).length := by
  refine ⟨?_, fun a => ?_, ?_⟩
  · simp [assignOpThrowing, emplace_back_throwing, hfail, Except.map]
  · simp only [assignOpThrowing, emplace_back_throwing, hfail]
    by_cases ha : a = s.it.m_container <;> simp [ha]
  · simp [assignOpThrowing, emplace_back_throwing, hfail]

/-- Witness for C3: a constructor that always throws propagates its error
and leaves the (empty) bound container empty. -/
theorem C3_witness :
    (assignOpThrowing (fun _ : Unit => (.error "bad" : Except String Nat))
        ⟨⟨0⟩, fun _ => []⟩ ()).1 = .error "bad"
    ∧ ((assignOpThrowing (fun _ : Unit => (.error "bad" : Except String Nat))
        ⟨⟨0⟩, fun _ => []⟩ ()).2).heap 0 = [] := by
  have h := C3_failed_assignment_leaves_container
    (fun _ : Unit => (.error "bad" : Except String Nat))
    ⟨⟨0⟩, fun _ => []⟩ () "bad" rfl
  exact ⟨h.1, h.2.1 0⟩

/-- C2: the value category of each bundle element is preserved through
`operator=` to the element constructor: the i-th observation of an
assignment is the constructor consuming the i-th element at its forwarded
category; a value-stored element of an rvalue bundle (a movable temporary)
is observed move-constructed, a reference-stored element (a named external
value) is observed copied/read by reference with its source left untouched,
and in every case the constructor receives the element's value. -/
theorem C2_value_category_preserved {α : Type} (tupleCat : ValueCat)
    (bundle : List (TupleStorage × Source α)) (i : Nat) (st : TupleStorage)
    (src : Source α) (hb : bundle[i]? = some (st, src)) :
    (assignObserve tupleCat bundle)[i]?
        = some (constructObserve (forwardedCat tupleCat st) src)
    ∧ (constructObserve (forwardedCat tupleCat st) src).1 = src.value
    ∧ (st = TupleStorage.byValue → tupleCat = ValueCat.rvalue →
        (constructObserve (forwardedCat tupleCat st) src).2.2
          = CtorAccess.movedAccess)
    ∧ (st = TupleStorage.byLRef →
        (constructObserve (forwardedCat tupleCat st) src).2.2
            = CtorAccess.copiedAccess
        ∧ (constructObserve (forwardedCat tupleCat st) src).2.1 = src) := by
  refine ⟨?_, ?_, ?_, ?_⟩
  · simp [assignObserve, hb]
  · cases tupleCat <;> cases st <;>
      simp [constructObserve, forwardedCat, getCat, forwardCat]
  · intro hst htc
    subst hst; subst htc
    rfl
  · intro hst
    subst hst
    exact ⟨rfl, rfl⟩

/-- Witness for C2: a single-element rvalue bundle holding the source value
0 is observed move-constructed, delivering the value 0 and marking the
source moved-from. -/
theorem C2_witness :
    (assignObserve ValueCat.rvalue
        [(TupleStorage.byValue, (⟨0, false⟩ : Source Nat))])[0]?
        = some (constructObserve
            (forwardedCat ValueCat.rvalue TupleStorage.byValue) ⟨0, false⟩)
    ∧ (constructObserve (forwardedCat ValueCat.rvalue TupleStorage.byValue)
        (⟨0, false⟩ : Source Nat)).2.2 = CtorAccess.movedAccess := by
  have h := C2_value_category_preserved ValueCat.rvalue
    [(TupleStorage.byValue, (⟨0, false⟩ : Source Nat))] 0
    TupleStorage.byValue ⟨0, false⟩ rfl
  exact ⟨h.1, h.2.2.1 rfl rfl⟩

/-- C8: the explicit-loop driver and the transformation-algorithm driver
build the same container: for every n, both produce a deque of exactly n
`ProgressBar` elements constructed, in order, from the same
(streambuf, task-string) pairs. -/
theorem C8_drivers_build_equal_containers (n : Nat) :
    do_tasks_algorithm_bars n = do_tasks_for_loop_bars n
    ∧ (do_tasks_for_loop_bars n).length = n
    ∧ ∀ i : Nat, (do_tasks_for_loop_bars n)[i]?
        = ((get_tasks n)[i]?).map (fun task => ProgressBar.construct coutBuf task) := by
  have hfor : do_tasks_for_loop_bars n
      = (get_tasks n).map (fun task => ProgressBar.construct coutBuf task) := by
    rw [do_tasks_for_loop_bars,
      foldl_emplace_back (apply2 ProgressBar.construct) (fun task => (coutBuf, task))]
    simp [apply2]
  have halg : do_tasks_algorithm_bars n
      = (get_tasks n).map (fun task => ProgressBar.construct coutBuf task) := by
    rw [do_tasks_algorithm_bars, transform_state]
    simp [back_emplacer, apply2]
  refine ⟨halg.trans hfor.symm, ?_, fun i => ?_⟩
  · rw [hfor]
    simp [get_tasks_eq]
  · rw [hfor]
    simp

/-- C9: `get_tasks n` returns exactly n strings, the i-th (0-based) being
the concatenation of "task" with i rendered in decimal, in increasing order
of i. -/
theorem C9_get_tasks_shape (n : Nat) :
    (get_tasks n).length = n
    ∧ ∀ i : Nat, i < n → (get_tasks n)[i]? = some ("task" ++ toString i) := by
  constructor
  · simp [get_tasks_eq]
  · intro i hi
    simp [get_tasks_eq, List.getElem?_range, hi]

/-- Witness for C9: three tasks are "task0", "task1", "task2". -/
theorem C9_witness :
    (get_tasks 3).length = 3 ∧ (get_tasks 3)[2]? = some "task2" := by
  have h := C9_get_tasks_shape 3
  exact ⟨h.1, (h.2 2 (by decide)).trans (by decide)⟩

/-- C10: the fold helpers satisfy the fold identities and the negation
relation: `all_of` over the empty pack is true, `any_of` over the empty pack
is false, and `none_of` is the negation of `any_of` on every pack. -/
theorem C10_fold_identities {T : Type} (P : T → Bool) (args : List T) :
    all_of P ([] : List T) = true
    ∧ any_of P ([] : List T) = false
    ∧ none_of P args = !any_of P args :=
  ⟨rfl, rfl, rfl⟩

/-- C4 counterexample: the claim says constructing a `back_emplace_iterator`
fails to compile whenever the container lacks `emplace_back`; but the
constructor's instantiation imposes no such constraint, so it succeeds for a
container without `emplace_back`. -/
theorem C4_counterexample : ¬ ctor_instantiates false = false := by
  decide

/-- C4 amended: constructing the adapter compiles for every container type
(no constraint is declared); it is the assignment operator whose
instantiation fails — as a hard compile-time error, not a runtime condition
— when the container lacks `emplace_back` or when the bundle's argument
types cannot construct the element type, and compiles when both hold. -/
theorem C4_compile_time_failure_at_assignment (hEB aOk : Bool) :
    ctor_instantiates hEB = true
    ∧ assign_instantiates false aOk = false
    ∧ assign_instantiates hEB false = false
    ∧ assign_instantiates true true = true := by
  refine ⟨rfl, ?_, ?_, rfl⟩
  · cases aOk <;> rfl
  · cases hEB <;> rfl
